import Mathlib

/-!
# herbstluftwm: typed-value converters of `src/types.h`

A shallow embedding of the `Converter<T>` specialisations declared in
`src/types.h`, followed by theorems about them.

Modelling conventions.

* `std::string` is a Lean `String` (a sequence of characters); a C++ `char`
  is a Lean `Char`.  All literals that the source compares against are ASCII.
* A C++ function that may throw returns `Except Err T`: `Except.ok v` is a
  normal return of `v`, `Except.error e` is a thrown exception `e`.  An
  exception keeps the `std::string` it was constructed from; its `what()` is
  the NUL-terminated view of that string.
* A pointer argument `T const* previous` that may be null is an `Option T`:
  `none` is the null pointer, `some p` points to the value `p`.
* `std::set<std::string>` with `find(x) != end()` is list membership;
  `std::map<char, Direction>` with `find` is an association-list lookup (the
  keys of the source's initialiser list are distinct, so insertion order does
  not matter).
-/

namespace Herbstluftwm

/-- The text that a reader of the `const char*` returned by
`std::string::c_str()` sees: the characters before the first NUL character. -/
def c_str (s : String) : String :=
  String.mk (s.data.takeWhile (fun c => decide (c ≠ Char.ofNat 0)))

/-- The exception classes of `<stdexcept>` that the converters throw (see the
comment on `Converter<T>::parse`: "Throws std::invalid_argument or
std::out_of_range"); the argument is the `std::string` handed to the
constructor. -/
inductive Err where
  | invalid_argument (what : String)
  | out_of_range (what : String)
  deriving DecidableEq, Repr

/-- The kind of an exception, forgetting its message. -/
inductive ErrKind where
  | InvalidArgument
  | OutOfRange
  deriving DecidableEq, Repr

/-- The kind of a thrown exception. -/
def Err.kind : Err → ErrKind
  | .invalid_argument _ => .InvalidArgument
  | .out_of_range _ => .OutOfRange

/-- The `what()` text of a thrown exception.  `what()` returns a `const char*`,
the `c_str()` of the stored message, so the text ends at the first NUL
character of the constructor's argument. -/
def Err.what : Err → String
  | .invalid_argument w => c_str w
  | .out_of_range w => c_str w

deriving instance DecidableEq for Except

/-- The outcome of a call with the message of a failure forgotten: the value
returned, or the kind of the exception thrown. -/
def outcome {α : Type} : Except Err α → Except ErrKind α
  | .ok v => .ok v
  | .error e => .error e.kind

/-- The `what()` text of the exception that a call throws, if it throws. -/
def failureText {α : Type} : Except Err α → Option String
  | .ok _ => none
  | .error e => some e.what

/-- The pieces of a text between the occurrences of a separator character. -/
def piecesBetween (sep : Char) : List Char → List (List Char)
  | [] => [[]]
  | c :: cs =>
    if c = sep then [] :: piecesBetween sep cs
    else
      match piecesBetween sep cs with
      | [] => [[c]]
      | w :: ws => (c :: w) :: ws

/-- The literals that a failure text of `Converter<bool>::parse` lists.  The
texts have the form `only <a>/<b>/... are valid booleans`: the listed literals
are the items, separated by '/', of the second word of the text. -/
def listedLiterals (msg : String) : List String :=
  match piecesBetween ' ' msg.data with
  | _ :: items :: _ => (piecesBetween '/' items).map String.mk
  | _ => []

/-! ## Booleans -/

namespace Converter_bool

/-- `Converter<bool>::str`: `payload ? "true" : "false"`. -/
def str (payload : Bool) : String :=
  if payload then "true" else "false"

/-- The local set `t` of `Converter<bool>::parse`. -/
def t : List String := ["true", "on", "1"]

/-- The local set `f` of `Converter<bool>::parse`. -/
def f : List String := ["false", "off", "0"]

/-- `Converter<bool>::parse`: the chain of `if`/`else if` of the source, in
the source's order.  `previous` used as a condition is the null test
`previous.isSome`, and `*previous` is `previous.get` under that test. -/
def parse (payload : String) (previous : Option Bool) : Except Err Bool :=
  if payload ∈ f then
    .ok false
  else if payload ∈ t then
    .ok true
  else if h : payload = "toggle" ∧ previous.isSome = true then
    .ok (!(previous.get h.2))
  else
    .error (.invalid_argument
      (if previous.isSome then "only on/off/true/false/toggle are valid booleans"
       else "only on/off/true/false are valid booleans"))

end Converter_bool

/-! ## Strings -/

namespace Converter_string

/-- `Converter<std::string>::str`: returns `payload`. -/
def str (payload : String) : String := payload

/-- `Converter<std::string>::parse`: returns `payload`; the unnamed second
parameter is ignored. -/
def parse (payload : String) (_relativeTo : Option String) : Except Err String :=
  .ok payload

end Converter_string

/-! ## Directions -/

/-- `enum class Direction { Right, Left, Up, Down }`. -/
inductive Direction where
  | Right
  | Left
  | Up
  | Down
  deriving DecidableEq, Repr

/-- `std::string::at(pos)`: the character at index `pos`, or a thrown
`std::out_of_range` when `pos >= size()`.  The text of that exception is the
one libstdc++ produces. -/
def String_at (s : String) (pos : Nat) : Except Err Char :=
  match s.data.get? pos with
  | some c => .ok c
  | none =>
    .error (.out_of_range
      ("basic_string::at: __n (which is " ++ toString pos ++
        ") >= this->size() (which is " ++ toString s.data.length ++ ")"))

namespace Converter_Direction

/-- The local `std::map<char, Direction> mapping` of
`Converter<Direction>::parse`. -/
def mapping : List (Char × Direction) :=
  [('u', Direction.Up), ('r', Direction.Right),
   ('d', Direction.Down), ('l', Direction.Left)]

/-- `Converter<Direction>::parse`: `payload.at(0)` is looked up in `mapping`;
a missing key throws `std::invalid_argument`, and `at` itself throws when the
payload has no character at index 0.  The unnamed second parameter is
ignored. -/
def parse (payload : String) (_relativeTo : Option Direction) : Except Err Direction :=
  match String_at payload 0 with
  | .error e => .error e
  | .ok c =>
    match mapping.lookup c with
    | none => .error (.invalid_argument ("Invalid direction \"" ++ payload ++ "\""))
    | some d => .ok d

end Converter_Direction

/-! ## Integers

`Converter<int>::parse` is `std::stoi(payload)`.  `std::stoi` belongs to the
C++ standard library, not to the repository; it is modelled here after the
standard ([string.conversions]: call `strtol(str.c_str(), &ptr, 10)`, throw
`std::invalid_argument` if no conversion could be performed, throw
`std::out_of_range` if `strtol` reports `ERANGE` or the result does not fit an
`int`) and after C's `strtol` in the "C" locale.  `long` is 64 bits wide
(LP64) and `int` is 32 bits wide.  `Converter<unsigned long>::parse` is
`std::stoul(payload)`, modelled in the same way after `strtoul`, and the
generic `Converter<T>::str` is `std::to_string(payload)`, which writes an
integer as `printf` does with `%d` and `%lu`. -/

/-- `INT_MIN` for a 32-bit `int`. -/
def INT_MIN : Int := -(2 ^ 31)

/-- `INT_MAX` for a 32-bit `int`. -/
def INT_MAX : Int := 2 ^ 31 - 1

/-- `LONG_MIN` for a 64-bit `long`. -/
def LONG_MIN : Int := -(2 ^ 63)

/-- `LONG_MAX` for a 64-bit `long`. -/
def LONG_MAX : Int := 2 ^ 63 - 1

/-- C's `isspace` in the "C" locale: space, `\t`, `\n`, `\v`, `\f`, `\r`. -/
def isspace (c : Char) : Bool :=
  c = ' ' || c = '\t' || c = '\n' || c = Char.ofNat 11 || c = Char.ofNat 12 || c = '\r'

/-- C's `isdigit`: one of `0` .. `9`. -/
def isdigit (c : Char) : Bool :=
  '0'.toNat ≤ c.toNat && c.toNat ≤ '9'.toNat

/-- The number a run of decimal digits denotes, most significant digit
first. -/
def digitsValue (ds : List Char) : Nat :=
  ds.foldl (fun acc d => 10 * acc + (d.toNat - '0'.toNat)) 0

/-- What a call of `strtol` leaves behind: the value returned, the offset of
`*endptr` from the start of the text, and whether `errno` was set to
`ERANGE`. -/
structure StrtolResult where
  value : Int
  endptr : Nat
  erange : Bool
  deriving DecidableEq, Repr

/-- C's `strtol(nptr, &endptr, 10)`: skip leading white space, read an
optional sign and the longest run of decimal digits.  Without a digit no
conversion is performed and `endptr` is `nptr` (offset 0).  Otherwise `endptr`
is just past the last digit, and the value is the number read, or `LONG_MIN`
/ `LONG_MAX` with `ERANGE` when that number is not representable.  The text is
the content of `c_str()`: a NUL character is neither white space, sign nor
digit, so reading stops there as it does in C. -/
def strtol (nptr : List Char) : StrtolResult :=
  let s := nptr.dropWhile isspace
  let neg : Bool := s.head? = some '-'
  let s1 := if s.head? = some '-' ∨ s.head? = some '+' then s.tail else s
  let ds := s1.takeWhile isdigit
  if ds = [] then
    { value := 0, endptr := 0, erange := false }
  else
    let v : Int := if neg then -(digitsValue ds : Int) else (digitsValue ds : Int)
    let endptr := nptr.length - (s1.length - ds.length)
    if v < LONG_MIN then { value := LONG_MIN, endptr := endptr, erange := true }
    else if v > LONG_MAX then { value := LONG_MAX, endptr := endptr, erange := true }
    else { value := v, endptr := endptr, erange := false }

/-- `std::stoi(str)` (libstdc++ `__stoa` over `strtol`, base 10, no `idx`):
`std::invalid_argument("stoi")` when `endptr == str`, `std::out_of_range("stoi")`
when `errno == ERANGE` or the `long` lies outside `[INT_MIN, INT_MAX]`,
otherwise the value. -/
def stoi (str : String) : Except Err Int :=
  let r := strtol str.data
  if r.endptr = 0 then
    .error (.invalid_argument "stoi")
  else if r.erange || decide (r.value < INT_MIN) || decide (r.value > INT_MAX) then
    .error (.out_of_range "stoi")
  else
    .ok r.value

/-- The integer that an optional sign (`sign` is empty, "-" or "+") followed
by the digits `ds` denotes. -/
def signedValue (sign ds : List Char) : Int :=
  if sign = ['-'] then -(digitsValue ds : Int) else (digitsValue ds : Int)

namespace Converter_int

/-- `Converter<int>::parse`: `return std::stoi(payload);` the unnamed second
parameter is ignored. -/
def parse (payload : String) (_relativeTo : Option Int) : Except Err Int :=
  stoi payload

end Converter_int

/-- `ULONG_MAX` for a 64-bit `unsigned long`. -/
def ULONG_MAX : Nat := 2 ^ 64 - 1

/-- What a call of `strtoul` leaves behind: the value returned, the offset of
`*endptr` from the start of the text, and whether `errno` was set to
`ERANGE`. -/
structure StrtoulResult where
  value : Nat
  endptr : Nat
  erange : Bool
  deriving DecidableEq, Repr

/-- C's `strtoul(nptr, &endptr, 10)`: the text is read as by `strtol`.  When
the number formed by the digits exceeds `ULONG_MAX` the value is `ULONG_MAX`
with `ERANGE`; otherwise the value is that number, negated in the unsigned
type (modulo `2 ^ 64`) when the text has a minus sign. -/
def strtoul (nptr : List Char) : StrtoulResult :=
  let s := nptr.dropWhile isspace
  let neg : Bool := s.head? = some '-'
  let s1 := if s.head? = some '-' ∨ s.head? = some '+' then s.tail else s
  let ds := s1.takeWhile isdigit
  if ds = [] then
    { value := 0, endptr := 0, erange := false }
  else
    let m : Nat := digitsValue ds
    let endptr := nptr.length - (s1.length - ds.length)
    if m > ULONG_MAX then { value := ULONG_MAX, endptr := endptr, erange := true }
    else { value := if neg then (2 ^ 64 - m) % 2 ^ 64 else m, endptr := endptr, erange := false }

/-- `std::stoul(str)` (libstdc++ `__stoa` over `strtoul`, base 10, no `idx`):
`std::invalid_argument("stoul")` when `endptr == str`,
`std::out_of_range("stoul")` when `errno == ERANGE`, otherwise the value. -/
def stoul (str : String) : Except Err Nat :=
  let r := strtoul str.data
  if r.endptr = 0 then
    .error (.invalid_argument "stoul")
  else if r.erange then
    .error (.out_of_range "stoul")
  else
    .ok r.value

/-- `std::to_string(unsigned long)`: the decimal digits of the value, as
`printf("%lu")` writes them. -/
def to_string_unsigned_long (val : Nat) : String :=
  String.mk (Nat.toDigits 10 val)

/-- `std::to_string(int)`: as `printf("%d")` writes the value, a minus sign
for a negative value followed by the decimal digits of the magnitude. -/
def to_string_int (val : Int) : String :=
  if val < 0 then String.mk ('-' :: Nat.toDigits 10 val.natAbs)
  else String.mk (Nat.toDigits 10 val.natAbs)

namespace Converter_int

/-- `Converter<int>::str`, the generic
`static std::string str(T payload) { return std::to_string(payload); }`
at `T = int`. -/
def str (payload : Int) : String :=
  to_string_int payload

end Converter_int

namespace Converter_unsigned_long

/-- `Converter<unsigned long>::parse`: `return std::stoul(payload);` the
unnamed second parameter is ignored. -/
def parse (payload : String) (_relativeTo : Option Nat) : Except Err Nat :=
  stoul payload

/-- `Converter<unsigned long>::str`, the generic
`static std::string str(T payload) { return std::to_string(payload); }`
at `T = unsigned long`. -/
def str (payload : Nat) : String :=
  to_string_unsigned_long payload

end Converter_unsigned_long

/-- The run of digits that `strtol` and `strtoul` read from a text: what
follows the leading white space and the optional sign, up to the first
character that is not a digit. -/
def digitRun (nptr : List Char) : List Char :=
  let s := nptr.dropWhile isspace
  let s1 := if s.head? = some '-' ∨ s.head? = some '+' then s.tail else s
  s1.takeWhile isdigit

/-- A run of characters is the canonical decimal text of `v`: at least one
character, digits only, no leading zero unless the text is "0", and `v` is the
number the digits denote. -/
def IsCanonicalDigits (ds : List Char) (v : Nat) : Prop :=
  ds ≠ [] ∧ (∀ c ∈ ds, isdigit c = true) ∧ (v ≠ 0 → ds.head? ≠ some '0') ∧
    (v = 0 → ds = ['0']) ∧ digitsValue ds = v

/-- A text has a decimal-integer prefix when it is some white space, an
optional sign, at least one digit, and anything after that. -/
def HasIntegerPrefix (text : List Char) : Prop :=
  ∃ ws sign ds rest : List Char, text = ws ++ sign ++ ds ++ rest ∧
    (∀ c ∈ ws, isspace c = true) ∧ (sign = [] ∨ sign = ['-'] ∨ sign = ['+']) ∧
    ds ≠ [] ∧ ∀ d ∈ ds, isdigit d = true

/-! ## Input

`types.h` declares `class Input : public ArgList` with a constructor,
`operator>>` and `command()`, but neither their bodies nor `arglist.h` are
among the sources.  The definitions of this section follow the specification's
description of the token sequence and of `Input`. -/

/-- Modelled from the spec: the failure kinds of an `Input` operation, whose
bodies are missing from the sources.  "Exhausted: an extraction was requested
but no tokens remain"; "EmptyCommand: command-name access requested on an
empty token sequence"; a converter's failure is passed on unchanged. -/
inductive InputErr where
  | Exhausted
  | EmptyCommand
  | Converter (e : Err)
  deriving DecidableEq, Repr

/-- Modelled from the spec: the state of `class Input : public ArgList`, whose
base class `ArgList` (`arglist.h`) is missing from the sources: "an ordered
sequence of strings" with "a consumption cursor for sequential extraction". -/
structure Input where
  tokens : List String
  cursor : Nat
  deriving DecidableEq, Repr

namespace Input

/-- Modelled from the spec: the constructor `Input::Input(const ArgList& argv)`,
whose body is missing from the sources: "constructed from a full token sequence
(command + args)", and "the extraction cursor for arguments starts at index
1". -/
def ofArgList (argv : List String) : Input :=
  { tokens := argv, cursor := 1 }

/-- Modelled from the spec: `Input::command()`, whose body is missing from the
sources: "returns element 0", and "`command()` fails with EmptyCommand" over an
empty token sequence. -/
def command (input : Input) : Except InputErr String :=
  match input.tokens with
  | [] => .error .EmptyCommand
  | c :: _ => .ok c

/-- Modelled from the spec: `Input::operator>>(std::string& val)`, whose body
is missing from the sources: "take next and advance cursor", which "fails with
an exhausted condition when no tokens remain"; "extraction advances a cursor,
does not mutate contents".  The result is the token stored into `val` and the
Input afterwards. -/
def extract (input : Input) : Except InputErr (String × Input) :=
  match input.tokens.get? input.cursor with
  | some tok => .ok (tok, { input with cursor := input.cursor + 1 })
  | none => .error .Exhausted

/-- Modelled from the spec: the typed extraction "extract next token, parse
via Converter<T>, store into destination" at `T = int`, which "may fail with
either the Token Sequence's exhaustion error or the relevant Converter's parse
error"; no code for it is among the sources. -/
def extract_int (input : Input) : Except InputErr (Int × Input) :=
  match input.extract with
  | .error e => .error e
  | .ok (tok, after) =>
    match Converter_int.parse tok none with
    | .error e => .error (.Converter e)
    | .ok v => .ok (v, after)

/-- The first `k` extractions from an Input, in order: the tokens obtained
and the Input afterwards, or the failure of the first extraction that
fails. -/
def extractMany : Nat → Input → Except InputErr (List String × Input)
  | 0, input => .ok ([], input)
  | k + 1, input =>
    match input.extract with
    | .error e => .error e
    | .ok (tok, after) =>
      match extractMany k after with
      | .error e => .error e
      | .ok (toks, final) => .ok (tok :: toks, final)

end Input

/-! ## Theorems: booleans -/

/-- C1: for every previous value, `Converter<bool>::parse` returns `true` on
each of "true", "on", "1" and `false` on each of "false", "off", "0"; it
throws on none of the six. -/
theorem bool_parse_six_literals (previous : Option Bool) :
    Converter_bool.parse "true" previous = .ok true ∧
    Converter_bool.parse "on" previous = .ok true ∧
    Converter_bool.parse "1" previous = .ok true ∧
    Converter_bool.parse "false" previous = .ok false ∧
    Converter_bool.parse "off" previous = .ok false ∧
    Converter_bool.parse "0" previous = .ok false := by
  refine ⟨?_, ?_, ?_, ?_, ?_, ?_⟩ <;>
    simp [Converter_bool.parse, Converter_bool.f, Converter_bool.t]

/-- C2: for every boolean `p`, `Converter<bool>::parse("toggle", &p)` returns
the negation of `p`. -/
theorem bool_parse_toggle_negates (p : Bool) :
    Converter_bool.parse "toggle" (some p) = .ok (!p) := by
  simp [Converter_bool.parse, Converter_bool.f, Converter_bool.t]

/-- C3: `Converter<bool>::parse("toggle", nullptr)` returns no value: it
throws `std::invalid_argument`. -/
theorem bool_parse_toggle_without_previous :
    Converter_bool.parse "toggle" none =
        .error (.invalid_argument "only on/off/true/false are valid booleans") ∧
      outcome (Converter_bool.parse "toggle" none) = .error .InvalidArgument := by
  simp [Converter_bool.parse, Converter_bool.f, Converter_bool.t, outcome, Err.kind]

/-- C4: `Converter<bool>::parse` returns a value exactly when the token is one
of the six literals or is "toggle" with a previous value present; on every
token that is none of the seven words it throws `std::invalid_argument`,
whatever the previous value. -/
theorem bool_parse_succeeds_iff (payload : String) (previous : Option Bool) :
    ((∃ v, Converter_bool.parse payload previous = .ok v) ↔
      (payload ∈ ["true", "on", "1", "false", "off", "0"] ∨
        (payload = "toggle" ∧ previous.isSome = true))) ∧
    ((∀ v, Converter_bool.parse payload previous ≠ .ok v) →
      ∃ msg, Converter_bool.parse payload previous = .error (.invalid_argument msg)) ∧
    (payload ∉ ["true", "on", "1", "false", "off", "0", "toggle"] →
      ∃ msg, Converter_bool.parse payload previous = .error (.invalid_argument msg)) := by
  unfold Converter_bool.parse
  simp only [Converter_bool.f, Converter_bool.t]
  refine ⟨?_, ?_, ?_⟩
  · split_ifs with h1 h2 h3 <;> simp_all
  · split_ifs with h1 h2 h3 <;> simp
  · intro h
    split_ifs with h1 h2 h3 <;> simp_all

/-- Witness for C4 at the tokens "maybe", "True", "ON", "" and " true". -/
theorem bool_parse_succeeds_iff_witness :
    (∃ msg, Converter_bool.parse "maybe" (some true) = .error (.invalid_argument msg)) ∧
    (∃ msg, Converter_bool.parse "True" none = .error (.invalid_argument msg)) ∧
    (∃ msg, Converter_bool.parse "ON" (some false) = .error (.invalid_argument msg)) ∧
    (∃ msg, Converter_bool.parse "" none = .error (.invalid_argument msg)) ∧
    (∃ msg, Converter_bool.parse " true" (some true) = .error (.invalid_argument msg)) :=
  ⟨(bool_parse_succeeds_iff "maybe" (some true)).2.2 (by decide),
   (bool_parse_succeeds_iff "True" none).2.2 (by decide),
   (bool_parse_succeeds_iff "ON" (some false)).2.2 (by decide),
   (bool_parse_succeeds_iff "" none).2.2 (by decide),
   (bool_parse_succeeds_iff " true" (some true)).2.2 (by decide)⟩

/-- C5: `Converter<bool>::str` is exactly "true" for `true` and exactly
"false" for `false`; it is never "on", "off", "1" or "0". -/
theorem bool_str_canonical :
    Converter_bool.str true = "true" ∧ Converter_bool.str false = "false" ∧
      ∀ b : Bool, Converter_bool.str b ∉ ["on", "off", "1", "0"] := by
  refine ⟨rfl, rfl, ?_⟩
  intro b
  cases b <;> decide

/-! ## Theorems: directions -/

/-- On a token with first character `c`, `payload.at(0)` returns `c`. -/
theorem String_at_zero_of_head (payload : String) (c : Char)
    (h : payload.data.head? = some c) : String_at payload 0 = .ok c := by
  obtain ⟨data⟩ := payload
  cases data with
  | nil => simp at h
  | cons a rest =>
    simp only [List.head?_cons, Option.some.injEq] at h
    simp [String_at, h]

/-- On a token with first character `c`, the outcome of
`Converter<Direction>::parse` is read off the table at `c`. -/
theorem direction_parse_of_head (payload : String) (previous : Option Direction) (c : Char)
    (h : payload.data.head? = some c) :
    Converter_Direction.parse payload previous =
      match Converter_Direction.mapping.lookup c with
      | none => .error (.invalid_argument ("Invalid direction \"" ++ payload ++ "\""))
      | some d => .ok d := by
  simp only [Converter_Direction.parse, String_at_zero_of_head payload c h]

/-- A token that is not the empty string has a first character. -/
theorem head_of_ne_empty (payload : String) (hne : payload ≠ "") :
    ∃ c, payload.data.head? = some c := by
  obtain ⟨data⟩ := payload
  cases data with
  | nil => exact absurd rfl hne
  | cons a rest => exact ⟨a, rfl⟩

/-- C6: on a non-empty token `Converter<Direction>::parse` depends only on the
first character: 'u' gives Up, 'r' Right, 'd' Down, 'l' Left, and two
non-empty tokens with the same first character have the same outcome (the
same Direction, or the same kind of exception), whatever the previous
values. -/
theorem direction_parse_first_char (payload : String) (previous : Option Direction)
    (hne : payload ≠ "") :
    (payload.data.head? = some 'u' → Converter_Direction.parse payload previous = .ok .Up) ∧
    (payload.data.head? = some 'r' → Converter_Direction.parse payload previous = .ok .Right) ∧
    (payload.data.head? = some 'd' → Converter_Direction.parse payload previous = .ok .Down) ∧
    (payload.data.head? = some 'l' → Converter_Direction.parse payload previous = .ok .Left) ∧
    (∀ (payload2 : String) (previous2 : Option Direction), payload2 ≠ "" →
      payload2.data.head? = payload.data.head? →
      outcome (Converter_Direction.parse payload2 previous2) =
        outcome (Converter_Direction.parse payload previous)) := by
  refine ⟨?_, ?_, ?_, ?_, ?_⟩
  · intro h
    rw [direction_parse_of_head payload previous _ h]; rfl
  · intro h
    rw [direction_parse_of_head payload previous _ h]; rfl
  · intro h
    rw [direction_parse_of_head payload previous _ h]; rfl
  · intro h
    rw [direction_parse_of_head payload previous _ h]; rfl
  · intro payload2 previous2 _ h2
    obtain ⟨c, hc⟩ := head_of_ne_empty payload hne
    rw [direction_parse_of_head payload previous c hc,
      direction_parse_of_head payload2 previous2 c (h2.trans hc)]
    cases Converter_Direction.mapping.lookup c <;> rfl

/-- Witness for C6 at "right", with "r" as the second token, and at "up". -/
theorem direction_parse_first_char_witness :
    Converter_Direction.parse "right" none = .ok .Right ∧
    outcome (Converter_Direction.parse "r" (some .Left)) =
      outcome (Converter_Direction.parse "right" none) ∧
    Converter_Direction.parse "up" none = .ok .Up :=
  ⟨(direction_parse_first_char "right" none (by decide)).2.1 rfl,
   (direction_parse_first_char "right" none (by decide)).2.2.2.2 "r" (some .Left)
     (by decide) rfl,
   (direction_parse_first_char "up" none (by decide)).1 rfl⟩

/-- When some element of the first list fails the test, `takeWhile` on an
append stops inside the first list. -/
theorem takeWhile_append_of_exists_neg {α : Type} (p : α → Bool) (xs ys : List α)
    (h : ∃ x ∈ xs, p x = false) : (xs ++ ys).takeWhile p = xs.takeWhile p := by
  induction xs with
  | nil =>
    obtain ⟨x, hx, _⟩ := h
    cases hx
  | cons a rest ih =>
    by_cases ha : p a = true
    · obtain ⟨x, hx, hpx⟩ := h
      rcases List.mem_cons.mp hx with rfl | hmem
      · rw [ha] at hpx
        cases hpx
      · rw [List.cons_append, List.takeWhile_cons_of_pos ha, List.takeWhile_cons_of_pos ha,
          ih ⟨x, hmem, hpx⟩]
    · rw [List.cons_append, List.takeWhile_cons_of_neg ha, List.takeWhile_cons_of_neg ha]

/-- A text without a NUL character is read whole through `c_str()`. -/
theorem c_str_of_no_nul (s : String) (h : Char.ofNat 0 ∉ s.data) : c_str s = s := by
  have hall : ∀ x ∈ s.data, (fun c => decide (c ≠ Char.ofNat 0)) x = true := by
    intro x hx
    simp only [decide_eq_true_eq]
    rintro rfl
    exact h hx
  unfold c_str
  rw [List.takeWhile_eq_self_iff.mpr hall]

/-- The `what()` text of the exception thrown with the message
`Invalid direction "<token>"`: the message up to the first NUL character of
the token, that is, with the closing quote only when the token has none. -/
theorem c_str_invalid_direction (payload : String) :
    c_str ("Invalid direction \"" ++ payload ++ "\"") =
      String.mk ("Invalid direction \"".data ++ (c_str payload).data ++
        (if Char.ofNat 0 ∈ payload.data then [] else ['"'])) := by
  have hpre : ∀ x ∈ "Invalid direction \"".data,
      (fun c => decide (c ≠ Char.ofNat 0)) x = true := by decide
  unfold c_str
  simp only [String.data_append]
  rw [List.append_assoc, List.takeWhile_append_of_pos hpre, List.append_assoc]
  congr 2
  by_cases hnul : Char.ofNat 0 ∈ payload.data
  · rw [if_pos hnul, List.append_nil]
    exact takeWhile_append_of_exists_neg _ _ _ ⟨Char.ofNat 0, hnul, by decide⟩
  · have hall : ∀ x ∈ payload.data, (fun c => decide (c ≠ Char.ofNat 0)) x = true := by
      intro x hx
      simp only [decide_eq_true_eq]
      rintro rfl
      exact hnul hx
    rw [if_neg hnul, List.takeWhile_append_of_pos hall, List.takeWhile_eq_self_iff.mpr hall]
    rfl

/-- C7, as stated, fails: on the token made of 'x', a NUL character and 'y',
`Converter<Direction>::parse` throws `std::invalid_argument`, but the `what()`
text is `Invalid direction "x` and does not contain the token. -/
theorem direction_parse_message_cut_at_nul :
    (String.mk ['x', Char.ofNat 0, 'y']).data.head? = some 'x' ∧
      'x' ∉ ['u', 'r', 'd', 'l'] ∧
      outcome (Converter_Direction.parse (String.mk ['x', Char.ofNat 0, 'y']) none) =
        .error .InvalidArgument ∧
      failureText (Converter_Direction.parse (String.mk ['x', Char.ofNat 0, 'y']) none) =
        some "Invalid direction \"x" ∧
      ¬ ['x', Char.ofNat 0, 'y'] <:+: "Invalid direction \"x".data := by
  decide

/-- C7, amended: on a non-empty token whose first character is none of 'u',
'r', 'd', 'l', `Converter<Direction>::parse` throws `std::invalid_argument`
constructed from `Invalid direction "<token>"`.  Its `what()` text is that
message up to the first NUL character of the token; when the token has no NUL
character the text is the whole `Invalid direction "<token>"` and contains the
whole token. -/
theorem direction_parse_rejects_other_first_char (payload : String)
    (previous : Option Direction) (c : Char) (h : payload.data.head? = some c)
    (hc : c ∉ ['u', 'r', 'd', 'l']) :
    Converter_Direction.parse payload previous =
        .error (.invalid_argument ("Invalid direction \"" ++ payload ++ "\"")) ∧
      outcome (Converter_Direction.parse payload previous) = .error .InvalidArgument ∧
      failureText (Converter_Direction.parse payload previous) =
        some (String.mk ("Invalid direction \"".data ++ (c_str payload).data ++
          (if Char.ofNat 0 ∈ payload.data then [] else ['"']))) ∧
      (Char.ofNat 0 ∉ payload.data →
        failureText (Converter_Direction.parse payload previous) =
            some ("Invalid direction \"" ++ payload ++ "\"") ∧
          ∀ text, failureText (Converter_Direction.parse payload previous) = some text →
            payload.data <:+: text.data) := by
  have hl : Converter_Direction.mapping.lookup c = none := by
    simp only [List.mem_cons, List.mem_singleton, List.mem_nil_iff, or_false, not_or] at hc
    obtain ⟨h1, h2, h3, h4⟩ := hc
    have e1 : (c == 'u') = false := by simp [h1]
    have e2 : (c == 'r') = false := by simp [h2]
    have e3 : (c == 'd') = false := by simp [h3]
    have e4 : (c == 'l') = false := by simp [h4]
    simp only [Converter_Direction.mapping, List.lookup, e1, e2, e3, e4]
  have hp := direction_parse_of_head payload previous c h
  rw [hl] at hp
  have hwhat : failureText (Converter_Direction.parse payload previous) =
      some (c_str ("Invalid direction \"" ++ payload ++ "\"")) := by
    rw [hp]; rfl
  refine ⟨hp, ?_, ?_, ?_⟩
  · rw [hp]; rfl
  · rw [hwhat, c_str_invalid_direction]
  · intro hnul
    have hwhole : failureText (Converter_Direction.parse payload previous) =
        some ("Invalid direction \"" ++ payload ++ "\"") := by
      rw [hwhat, c_str_invalid_direction, c_str_of_no_nul payload hnul, if_neg hnul]
      rfl
    refine ⟨hwhole, ?_⟩
    intro text htext
    rw [hwhole] at htext
    cases htext
    refine ⟨"Invalid direction \"".data, "\"".data, ?_⟩
    simp [String.data_append]

/-- Witness for C7, amended, at "xyz" and at the upper-case tokens "Up",
"Right", "Down", "Left". -/
theorem direction_parse_rejects_other_first_char_witness :
    Converter_Direction.parse "xyz" none =
        .error (.invalid_argument "Invalid direction \"xyz\"") ∧
    failureText (Converter_Direction.parse "xyz" none) = some "Invalid direction \"xyz\"" ∧
    "xyz".data <:+: "Invalid direction \"xyz\"".data ∧
    outcome (Converter_Direction.parse "Up" none) = .error .InvalidArgument ∧
    outcome (Converter_Direction.parse "Right" none) = .error .InvalidArgument ∧
    outcome (Converter_Direction.parse "Down" none) = .error .InvalidArgument ∧
    outcome (Converter_Direction.parse "Left" none) = .error .InvalidArgument :=
  ⟨(direction_parse_rejects_other_first_char "xyz" none 'x' rfl (by decide)).1,
   ((direction_parse_rejects_other_first_char "xyz" none 'x' rfl (by decide)).2.2.2
      (by decide)).1,
   ((direction_parse_rejects_other_first_char "xyz" none 'x' rfl (by decide)).2.2.2
      (by decide)).2 "Invalid direction \"xyz\"" (by decide),
   (direction_parse_rejects_other_first_char "Up" none 'U' rfl (by decide)).2.1,
   (direction_parse_rejects_other_first_char "Right" none 'R' rfl (by decide)).2.1,
   (direction_parse_rejects_other_first_char "Down" none 'D' rfl (by decide)).2.1,
   (direction_parse_rejects_other_first_char "Left" none 'L' rfl (by decide)).2.1⟩

/-- C8, as stated, fails: on the empty token `Converter<Direction>::parse`
does not throw `std::invalid_argument`. -/
theorem direction_parse_empty_not_invalid_argument :
    ¬ ∃ msg, Converter_Direction.parse "" none = .error (.invalid_argument msg) := by
  rintro ⟨msg, h⟩
  simp [Converter_Direction.parse, String_at] at h

/-- C8, amended: on the empty token `Converter<Direction>::parse` returns no
Direction; the bounds-checked `payload.at(0)` throws `std::out_of_range`,
whatever the previous value. -/
theorem direction_parse_empty_out_of_range (previous : Option Direction) :
    (∀ d, Converter_Direction.parse "" previous ≠ .ok d) ∧
      outcome (Converter_Direction.parse "" previous) = .error .OutOfRange := by
  constructor
  · intro d h
    simp [Converter_Direction.parse, String_at] at h
  · simp [Converter_Direction.parse, String_at, outcome, Err.kind]

/-! ## Theorems: strings -/

/-- C9: the string converter is the identity both ways and total: for every
text and every previous value `Converter<std::string>::parse` returns the text
unchanged, and `Converter<std::string>::str` returns it unchanged. -/
theorem string_converter_identity (s : String) (previous : Option String) :
    Converter_string.parse s previous = .ok s ∧ Converter_string.str s = s :=
  ⟨rfl, rfl⟩

/-! ## Theorems: integers -/

/-- A digit is neither white space nor a sign. -/
theorem isdigit_not_special (c : Char) (h : isdigit c = true) :
    isspace c = false ∧ c ≠ '-' ∧ c ≠ '+' := by
  simp only [isdigit, Bool.and_eq_true, decide_eq_true_eq] at h
  refine ⟨?_, ?_, ?_⟩
  · simp only [isspace, Bool.or_eq_false_iff, decide_eq_false_iff_not]
    refine ⟨⟨⟨⟨⟨?_, ?_⟩, ?_⟩, ?_⟩, ?_⟩, ?_⟩ <;>
    · rintro rfl
      revert h
      decide
  · rintro rfl
    revert h
    decide
  · rintro rfl
    revert h
    decide

/-- What `strtol` does on an optional sign, a non-empty run of digits, and a
rest that does not start with a digit: it reads the sign and all the digits. -/
theorem strtol_sign_digits (sign ds tl : List Char)
    (hsign : sign = [] ∨ sign = ['-'] ∨ sign = ['+'])
    (hne : ds ≠ []) (hds : ∀ d ∈ ds, isdigit d = true)
    (htl : tl.takeWhile isdigit = []) :
    strtol (sign ++ ds ++ tl) =
      if signedValue sign ds < LONG_MIN then
        { value := LONG_MIN, endptr := sign.length + ds.length, erange := true }
      else if signedValue sign ds > LONG_MAX then
        { value := LONG_MAX, endptr := sign.length + ds.length, erange := true }
      else { value := signedValue sign ds, endptr := sign.length + ds.length, erange := false } := by
  obtain ⟨d, ds', rfl⟩ := List.exists_cons_of_ne_nil hne
  obtain ⟨hsp, hm, hp⟩ := isdigit_not_special d (hds d (List.mem_cons_self _ _))
  have htake : List.takeWhile isdigit (d :: ds' ++ tl) = d :: ds' := by
    rw [List.takeWhile_append_of_pos hds, htl, List.append_nil]
  rcases hsign with rfl | rfl | rfl
  · have hdrop : List.dropWhile isspace ([] ++ d :: ds' ++ tl) = d :: ds' ++ tl := by
      simp [hsp]
    have hhead : (d :: ds' ++ tl).head? = some d := rfl
    have h1 : ¬ (some d = some '-' ∨ some d = some '+') := by simp [hm, hp]
    have h2 : (decide (some d = some '-')) = false := by simp [hm]
    unfold strtol
    simp only [hdrop, hhead, if_neg h1, htake, h2, signedValue]
    simp
    split_ifs <;> simp <;> omega
  · have hdrop : List.dropWhile isspace (['-'] ++ d :: ds' ++ tl) = '-' :: (d :: ds' ++ tl) := by
      rw [List.append_assoc, List.singleton_append, List.dropWhile_cons_of_neg (by decide)]
    have hhead : ('-' :: (d :: ds' ++ tl)).head? = some '-' := rfl
    unfold strtol
    simp only [hdrop, hhead, true_or, if_true, List.tail_cons, htake, signedValue]
    simp
    split_ifs <;> simp <;> omega
  · have hdrop : List.dropWhile isspace (['+'] ++ d :: ds' ++ tl) = '+' :: (d :: ds' ++ tl) := by
      rw [List.append_assoc, List.singleton_append, List.dropWhile_cons_of_neg (by decide)]
    have hhead : ('+' :: (d :: ds' ++ tl)).head? = some '+' := rfl
    have h2 : (decide (some '+' = some '-')) = false := by decide
    unfold strtol
    simp only [hdrop, hhead, or_true, if_true, List.tail_cons, htake, h2, signedValue]
    simp
    split_ifs <;> simp <;> omega

/-- What `std::stoi` does on an optional sign, a non-empty run of digits, and
a rest that does not start with a digit: it returns the number read when that
fits an `int`, and throws `std::out_of_range` otherwise. -/
theorem stoi_sign_digits (sign ds tl : List Char)
    (hsign : sign = [] ∨ sign = ['-'] ∨ sign = ['+'])
    (hne : ds ≠ []) (hds : ∀ d ∈ ds, isdigit d = true)
    (htl : tl.takeWhile isdigit = []) :
    stoi (String.mk (sign ++ ds ++ tl)) =
      if signedValue sign ds < INT_MIN ∨ signedValue sign ds > INT_MAX then
        .error (.out_of_range "stoi")
      else .ok (signedValue sign ds) := by
  have hlen : sign.length + ds.length ≠ 0 := by
    have := List.length_pos.mpr hne
    omega
  unfold stoi
  simp only [strtol_sign_digits sign ds tl hsign hne hds htl]
  generalize signedValue sign ds = v
  simp only [INT_MIN, INT_MAX, LONG_MIN, LONG_MAX]
  split_ifs <;> simp_all <;> omega

/-- C10, amended: on a token made of a decimal integer (an optional sign and
at least one digit) followed by a character that is not a digit and anything
after it, `Converter<int>::parse` has the same outcome as on the integer
alone: the trailing characters are ignored, and the integer is returned when
it lies in the `int` range. -/
theorem int_parse_ignores_trailing (sign ds : List Char) (c : Char) (rest : List Char)
    (previous : Option Int)
    (hsign : sign = [] ∨ sign = ['-'] ∨ sign = ['+'])
    (hne : ds ≠ []) (hds : ∀ d ∈ ds, isdigit d = true) (hc : isdigit c = false) :
    Converter_int.parse (String.mk (sign ++ ds ++ c :: rest)) previous =
        Converter_int.parse (String.mk (sign ++ ds)) previous ∧
      (INT_MIN ≤ signedValue sign ds → signedValue sign ds ≤ INT_MAX →
        Converter_int.parse (String.mk (sign ++ ds ++ c :: rest)) previous =
          .ok (signedValue sign ds)) := by
  have h1 := stoi_sign_digits sign ds (c :: rest) hsign hne hds
    (List.takeWhile_cons_of_neg (by simp [hc]))
  have h2 := stoi_sign_digits sign ds [] hsign hne hds rfl
  rw [List.append_nil] at h2
  refine ⟨by simp only [Converter_int.parse, h1, h2], ?_⟩
  intro hlo hhi
  simp only [Converter_int.parse, h1]
  rw [if_neg]
  omega

/-- Witness for C10, amended, at "12a". -/
theorem int_parse_ignores_trailing_witness :
    Converter_int.parse "12a" none = .ok 12 ∧
      Converter_int.parse "12a" none = Converter_int.parse "12" none :=
  ⟨(int_parse_ignores_trailing [] ['1', '2'] 'a' [] none (by decide) (by decide) (by decide)
      (by decide)).2 (by decide) (by decide),
   (int_parse_ignores_trailing [] ['1', '2'] 'a' [] none (by decide) (by decide) (by decide)
      (by decide)).1⟩

/-- C10, as stated, fails: `Converter<int>::parse("12a")` returns 12 and
throws nothing. -/
theorem int_parse_12a_returns :
    Converter_int.parse "12a" none = .ok 12 ∧
      ¬ ∃ msg, Converter_int.parse "12a" none = .error (.invalid_argument msg) := by
  have h : Converter_int.parse "12a" none = .ok 12 := by decide
  refine ⟨h, ?_⟩
  rintro ⟨msg, hm⟩
  rw [h] at hm
  cases hm

/-! ## Theorems: what the numeric primitives read -/

/-- The digits read from white space, an optional sign, a non-empty run of
digits and a rest: the run, and the digits the rest starts with. -/
theorem digitRun_of_parts (ws sign ds rest : List Char)
    (hws : ∀ c ∈ ws, isspace c = true)
    (hsign : sign = [] ∨ sign = ['-'] ∨ sign = ['+'])
    (hne : ds ≠ []) (hds : ∀ d ∈ ds, isdigit d = true) :
    digitRun (ws ++ sign ++ ds ++ rest) = ds ++ rest.takeWhile isdigit := by
  obtain ⟨d, ds', rfl⟩ := List.exists_cons_of_ne_nil hne
  obtain ⟨hsp, hm, hp⟩ := isdigit_not_special d (hds d (List.mem_cons_self _ _))
  have htake : List.takeWhile isdigit (d :: ds' ++ rest) =
      d :: ds' ++ rest.takeWhile isdigit := List.takeWhile_append_of_pos hds
  rcases hsign with rfl | rfl | rfl
  · have hdrop : List.dropWhile isspace (ws ++ [] ++ d :: ds' ++ rest) = d :: ds' ++ rest := by
      rw [List.append_nil, List.append_assoc, List.dropWhile_append_of_pos hws]
      simp [hsp]
    have hhead : (d :: ds' ++ rest).head? = some d := rfl
    have h1 : ¬ (some d = some '-' ∨ some d = some '+') := by simp [hm, hp]
    unfold digitRun
    simp only [hdrop, hhead, if_neg h1, htake]
  · have hdrop : List.dropWhile isspace (ws ++ ['-'] ++ d :: ds' ++ rest) =
        '-' :: (d :: ds' ++ rest) := by
      rw [List.append_assoc, List.append_assoc, List.dropWhile_append_of_pos hws,
        List.singleton_append, List.dropWhile_cons_of_neg (by decide)]
    have hhead : ('-' :: (d :: ds' ++ rest)).head? = some '-' := rfl
    unfold digitRun
    simp only [hdrop, hhead, true_or, if_true, List.tail_cons, htake]
  · have hdrop : List.dropWhile isspace (ws ++ ['+'] ++ d :: ds' ++ rest) =
        '+' :: (d :: ds' ++ rest) := by
      rw [List.append_assoc, List.append_assoc, List.dropWhile_append_of_pos hws,
        List.singleton_append, List.dropWhile_cons_of_neg (by decide)]
    have hhead : ('+' :: (d :: ds' ++ rest)).head? = some '+' := rfl
    unfold digitRun
    simp only [hdrop, hhead, or_true, if_true, List.tail_cons, htake]

/-- A text has a decimal-integer prefix exactly when the numeric primitives
read at least one digit from it. -/
theorem hasIntegerPrefix_iff (text : List Char) :
    HasIntegerPrefix text ↔ digitRun text ≠ [] := by
  constructor
  · rintro ⟨ws, sign, ds, rest, rfl, hws, hsign, hne, hds⟩
    rw [digitRun_of_parts ws sign ds rest hws hsign hne hds]
    simp [hne]
  · intro h
    have hsplit := List.takeWhile_append_dropWhile isspace text
    have hws : ∀ c ∈ text.takeWhile isspace, isspace c = true :=
      fun c hc => List.mem_takeWhile_imp hc
    by_cases hs : (text.dropWhile isspace).head? = some '-' ∨
        (text.dropWhile isspace).head? = some '+'
    · have hrun : digitRun text = (text.dropWhile isspace).tail.takeWhile isdigit := by
        unfold digitRun
        simp only [if_pos hs]
      obtain ⟨c, hc, hcs⟩ : ∃ c, (text.dropWhile isspace).head? = some c ∧
          ([c] = ['-'] ∨ [c] = ['+']) := by
        rcases hs with hs | hs
        · exact ⟨'-', hs, Or.inl rfl⟩
        · exact ⟨'+', hs, Or.inr rfl⟩
      have htail : c :: (text.dropWhile isspace).tail = text.dropWhile isspace :=
        List.cons_head?_tail hc
      refine ⟨text.takeWhile isspace, [c], digitRun text,
        (text.dropWhile isspace).tail.dropWhile isdigit, ?_, hws, Or.inr hcs, h, ?_⟩
      · rw [hrun, List.append_assoc, List.append_assoc, List.takeWhile_append_dropWhile,
          List.singleton_append, htail, hsplit]
      · intro d hd
        rw [hrun] at hd
        exact List.mem_takeWhile_imp hd
    · have hrun : digitRun text = (text.dropWhile isspace).takeWhile isdigit := by
        unfold digitRun
        simp only [if_neg hs]
      refine ⟨text.takeWhile isspace, [], digitRun text,
        (text.dropWhile isspace).dropWhile isdigit, ?_, hws, Or.inl rfl, h, ?_⟩
      · rw [hrun, List.append_nil, List.append_assoc, List.takeWhile_append_dropWhile, hsplit]
      · intro d hd
        rw [hrun] at hd
        exact List.mem_takeWhile_imp hd

/-- The end pointer of `strtol` stays at the start exactly when no digit is
read. -/
theorem strtol_endptr_eq_zero_iff (nptr : List Char) :
    (strtol nptr).endptr = 0 ↔ digitRun nptr = [] := by
  have h1 := (List.dropWhile_sublist isspace (l := nptr)).length_le
  have h2 := List.length_tail (nptr.dropWhile isspace)
  unfold strtol digitRun
  by_cases hs : (nptr.dropWhile isspace).head? = some '-' ∨
      (nptr.dropWhile isspace).head? = some '+'
  · simp only [if_pos hs]
    have h3 := (List.takeWhile_sublist isdigit
      (l := (nptr.dropWhile isspace).tail)).length_le
    by_cases hd : List.takeWhile isdigit (nptr.dropWhile isspace).tail = []
    · simp [hd]
    · have h4 := List.length_pos.mpr hd
      have hpos : nptr.length - ((nptr.dropWhile isspace).tail.length -
          (List.takeWhile isdigit (nptr.dropWhile isspace).tail).length) ≠ 0 := by
        omega
      simp only [hd, if_false, iff_false]
      split_ifs <;> exact hpos
  · simp only [if_neg hs]
    have h3 := (List.takeWhile_sublist isdigit (l := nptr.dropWhile isspace)).length_le
    by_cases hd : List.takeWhile isdigit (nptr.dropWhile isspace) = []
    · simp [hd]
    · have h4 := List.length_pos.mpr hd
      have hpos : nptr.length - ((nptr.dropWhile isspace).length -
          (List.takeWhile isdigit (nptr.dropWhile isspace)).length) ≠ 0 := by
        omega
      simp only [hd, if_false, iff_false]
      split_ifs <;> exact hpos

/-- The end pointer of `strtoul` stays at the start exactly when no digit is
read. -/
theorem strtoul_endptr_eq_zero_iff (nptr : List Char) :
    (strtoul nptr).endptr = 0 ↔ digitRun nptr = [] := by
  have h1 := (List.dropWhile_sublist isspace (l := nptr)).length_le
  have h2 := List.length_tail (nptr.dropWhile isspace)
  unfold strtoul digitRun
  by_cases hs : (nptr.dropWhile isspace).head? = some '-' ∨
      (nptr.dropWhile isspace).head? = some '+'
  · simp only [if_pos hs]
    have h3 := (List.takeWhile_sublist isdigit
      (l := (nptr.dropWhile isspace).tail)).length_le
    by_cases hd : List.takeWhile isdigit (nptr.dropWhile isspace).tail = []
    · simp [hd]
    · have h4 := List.length_pos.mpr hd
      have hpos : nptr.length - ((nptr.dropWhile isspace).tail.length -
          (List.takeWhile isdigit (nptr.dropWhile isspace).tail).length) ≠ 0 := by
        omega
      simp only [hd, if_false, iff_false]
      split_ifs <;> exact hpos
  · simp only [if_neg hs]
    have h3 := (List.takeWhile_sublist isdigit (l := nptr.dropWhile isspace)).length_le
    by_cases hd : List.takeWhile isdigit (nptr.dropWhile isspace) = []
    · simp [hd]
    · have h4 := List.length_pos.mpr hd
      have hpos : nptr.length - ((nptr.dropWhile isspace).length -
          (List.takeWhile isdigit (nptr.dropWhile isspace)).length) ≠ 0 := by
        omega
      simp only [hd, if_false, iff_false]
      split_ifs <;> exact hpos

/-- What `strtoul` does on an optional sign, a non-empty run of digits, and a
rest that does not start with a digit: it reads the sign and all the digits. -/
theorem strtoul_sign_digits (sign ds tl : List Char)
    (hsign : sign = [] ∨ sign = ['-'] ∨ sign = ['+'])
    (hne : ds ≠ []) (hds : ∀ d ∈ ds, isdigit d = true)
    (htl : tl.takeWhile isdigit = []) :
    strtoul (sign ++ ds ++ tl) =
      if digitsValue ds > ULONG_MAX then
        { value := ULONG_MAX, endptr := sign.length + ds.length, erange := true }
      else
        { value := if sign = ['-'] then (2 ^ 64 - digitsValue ds) % 2 ^ 64 else digitsValue ds,
          endptr := sign.length + ds.length, erange := false } := by
  obtain ⟨d, ds', rfl⟩ := List.exists_cons_of_ne_nil hne
  obtain ⟨hsp, hm, hp⟩ := isdigit_not_special d (hds d (List.mem_cons_self _ _))
  have htake : List.takeWhile isdigit (d :: ds' ++ tl) = d :: ds' := by
    rw [List.takeWhile_append_of_pos hds, htl, List.append_nil]
  rcases hsign with rfl | rfl | rfl
  · have hdrop : List.dropWhile isspace ([] ++ d :: ds' ++ tl) = d :: ds' ++ tl := by
      simp [hsp]
    have hhead : (d :: ds' ++ tl).head? = some d := rfl
    have h1 : ¬ (some d = some '-' ∨ some d = some '+') := by simp [hm, hp]
    have h2 : (decide (some d = some '-')) = false := by simp [hm]
    unfold strtoul
    simp only [hdrop, hhead, if_neg h1, htake, h2]
    simp
    split_ifs <;> simp <;> omega
  · have hdrop : List.dropWhile isspace (['-'] ++ d :: ds' ++ tl) = '-' :: (d :: ds' ++ tl) := by
      rw [List.append_assoc, List.singleton_append, List.dropWhile_cons_of_neg (by decide)]
    have hhead : ('-' :: (d :: ds' ++ tl)).head? = some '-' := rfl
    unfold strtoul
    simp only [hdrop, hhead, true_or, if_true, List.tail_cons, htake]
    simp
    split_ifs <;> simp <;> omega
  · have hdrop : List.dropWhile isspace (['+'] ++ d :: ds' ++ tl) = '+' :: (d :: ds' ++ tl) := by
      rw [List.append_assoc, List.singleton_append, List.dropWhile_cons_of_neg (by decide)]
    have hhead : ('+' :: (d :: ds' ++ tl)).head? = some '+' := rfl
    have h2 : (decide (some '+' = some '-')) = false := by decide
    unfold strtoul
    simp only [hdrop, hhead, or_true, if_true, List.tail_cons, htake, h2]
    simp
    split_ifs <;> simp <;> omega

/-- What `std::stoul` does on an optional sign, a non-empty run of digits, and
a rest that does not start with a digit: `std::out_of_range` when the digits
exceed `ULONG_MAX`, otherwise the number read, negated modulo `2 ^ 64` under
a minus sign. -/
theorem stoul_sign_digits (sign ds tl : List Char)
    (hsign : sign = [] ∨ sign = ['-'] ∨ sign = ['+'])
    (hne : ds ≠ []) (hds : ∀ d ∈ ds, isdigit d = true)
    (htl : tl.takeWhile isdigit = []) :
    stoul (String.mk (sign ++ ds ++ tl)) =
      if digitsValue ds > ULONG_MAX then .error (.out_of_range "stoul")
      else .ok (if sign = ['-'] then (2 ^ 64 - digitsValue ds) % 2 ^ 64 else digitsValue ds) := by
  have hlen : sign.length + ds.length ≠ 0 := by
    have := List.length_pos.mpr hne
    omega
  unfold stoul
  simp only [strtoul_sign_digits sign ds tl hsign hne hds htl]
  split_ifs <;> simp_all

/-! ## Theorems: integer parsing, continued -/

/-- C11: on a token made of an optional sign and at least one digit whose
value lies outside `[INT_MIN, INT_MAX]`, `Converter<int>::parse` throws
`std::out_of_range`: it returns no value and does not throw
`std::invalid_argument`. -/
theorem int_parse_out_of_range (sign ds : List Char) (previous : Option Int)
    (hsign : sign = [] ∨ sign = ['-'] ∨ sign = ['+'])
    (hne : ds ≠ []) (hds : ∀ d ∈ ds, isdigit d = true)
    (hout : signedValue sign ds < INT_MIN ∨ signedValue sign ds > INT_MAX) :
    Converter_int.parse (String.mk (sign ++ ds)) previous = .error (.out_of_range "stoi") ∧
      outcome (Converter_int.parse (String.mk (sign ++ ds)) previous) = .error .OutOfRange ∧
      (∀ v, Converter_int.parse (String.mk (sign ++ ds)) previous ≠ .ok v) ∧
      ∀ msg, Converter_int.parse (String.mk (sign ++ ds)) previous ≠
        .error (.invalid_argument msg) := by
  have h := stoi_sign_digits sign ds [] hsign hne hds rfl
  rw [List.append_nil, if_pos hout] at h
  have hp : Converter_int.parse (String.mk (sign ++ ds)) previous =
      .error (.out_of_range "stoi") := h
  refine ⟨hp, ?_, ?_, ?_⟩
  · rw [hp]; rfl
  · intro v hv
    rw [hp] at hv
    cases hv
  · intro msg hm
    rw [hp] at hm
    cases hm

/-- Witness for C11 at "99999999999999999999", "2147483648" and
"-2147483649". -/
theorem int_parse_out_of_range_witness :
    Converter_int.parse "99999999999999999999" none = .error (.out_of_range "stoi") ∧
    Converter_int.parse "2147483648" none = .error (.out_of_range "stoi") ∧
    Converter_int.parse "-2147483649" none = .error (.out_of_range "stoi") :=
  ⟨(int_parse_out_of_range [] "99999999999999999999".data none (by decide) (by decide)
      (by decide) (by decide)).1,
   (int_parse_out_of_range [] "2147483648".data none (by decide) (by decide)
      (by decide) (by decide)).1,
   (int_parse_out_of_range ['-'] "2147483649".data none (by decide) (by decide)
      (by decide) (by decide)).1⟩

/-- C12: on a token without a decimal-integer prefix (no optional sign
followed by a digit after the leading white space) both
`Converter<int>::parse` and `Converter<unsigned long>::parse` throw
`std::invalid_argument`. -/
theorem parse_no_integer_prefix_fails (payload : String) (previous : Option Int)
    (previousUL : Option Nat) (h : ¬ HasIntegerPrefix payload.data) :
    Converter_int.parse payload previous = .error (.invalid_argument "stoi") ∧
      outcome (Converter_int.parse payload previous) = .error .InvalidArgument ∧
      Converter_unsigned_long.parse payload previousUL = .error (.invalid_argument "stoul") ∧
      outcome (Converter_unsigned_long.parse payload previousUL) = .error .InvalidArgument := by
  have hrun : digitRun payload.data = [] := by
    by_contra hne
    exact h ((hasIntegerPrefix_iff payload.data).mpr hne)
  have h1 : Converter_int.parse payload previous = .error (.invalid_argument "stoi") := by
    simp only [Converter_int.parse, stoi, (strtol_endptr_eq_zero_iff payload.data).mpr hrun,
      if_true]
  have h2 : Converter_unsigned_long.parse payload previousUL =
      .error (.invalid_argument "stoul") := by
    simp only [Converter_unsigned_long.parse, stoul,
      (strtoul_endptr_eq_zero_iff payload.data).mpr hrun, if_true]
  refine ⟨h1, ?_, h2, ?_⟩
  · rw [h1]; rfl
  · rw [h2]; rfl

/-- Witness for C12 at "", "abc", "-" and "a12". -/
theorem parse_no_integer_prefix_fails_witness :
    (Converter_int.parse "" none = .error (.invalid_argument "stoi") ∧
      Converter_unsigned_long.parse "" none = .error (.invalid_argument "stoul")) ∧
    (Converter_int.parse "abc" none = .error (.invalid_argument "stoi") ∧
      Converter_unsigned_long.parse "abc" none = .error (.invalid_argument "stoul")) ∧
    (Converter_int.parse "-" none = .error (.invalid_argument "stoi") ∧
      Converter_unsigned_long.parse "-" none = .error (.invalid_argument "stoul")) ∧
    (Converter_int.parse "a12" none = .error (.invalid_argument "stoi") ∧
      Converter_unsigned_long.parse "a12" none = .error (.invalid_argument "stoul")) :=
  ⟨⟨(parse_no_integer_prefix_fails "" none none
        ((hasIntegerPrefix_iff _).not.mpr (by decide))).1,
    (parse_no_integer_prefix_fails "" none none
        ((hasIntegerPrefix_iff _).not.mpr (by decide))).2.2.1⟩,
   ⟨(parse_no_integer_prefix_fails "abc" none none
        ((hasIntegerPrefix_iff _).not.mpr (by decide))).1,
    (parse_no_integer_prefix_fails "abc" none none
        ((hasIntegerPrefix_iff _).not.mpr (by decide))).2.2.1⟩,
   ⟨(parse_no_integer_prefix_fails "-" none none
        ((hasIntegerPrefix_iff _).not.mpr (by decide))).1,
    (parse_no_integer_prefix_fails "-" none none
        ((hasIntegerPrefix_iff _).not.mpr (by decide))).2.2.1⟩,
   ⟨(parse_no_integer_prefix_fails "a12" none none
        ((hasIntegerPrefix_iff _).not.mpr (by decide))).1,
    (parse_no_integer_prefix_fails "a12" none none
        ((hasIntegerPrefix_iff _).not.mpr (by decide))).2.2.1⟩⟩

/-! ## Theorems: decimal text -/

/-- The character of a decimal digit is a digit, denotes that digit, and is
'0' only for zero. -/
theorem digitChar_decimal (m : Nat) (hm : m < 10) :
    isdigit (Nat.digitChar m) = true ∧ (Nat.digitChar m).toNat - '0'.toNat = m ∧
      (m ≠ 0 → Nat.digitChar m ≠ '0') := by
  interval_cases m <;> decide

/-- Appending one digit to a run multiplies its value by ten and adds the
digit. -/
theorem digitsValue_append_singleton (ds : List Char) (d : Char) :
    digitsValue (ds ++ [d]) = 10 * digitsValue ds + (d.toNat - '0'.toNat) := by
  simp [digitsValue, List.foldl_append]

/-- With enough fuel the digit loop of `Nat.toDigits` puts the canonical
decimal text of `n` in front of its accumulator. -/
theorem toDigitsCore_canonical (fuel : Nat) :
    ∀ (n : Nat) (acc : List Char), n < fuel →
      ∃ ds, Nat.toDigitsCore 10 fuel n acc = ds ++ acc ∧ IsCanonicalDigits ds n := by
  induction fuel with
  | zero => intro n acc h; omega
  | succ fuel ih =>
    intro n acc hn
    obtain ⟨hdig, hval, hzero⟩ := digitChar_decimal (n % 10) (Nat.mod_lt n (by decide))
    unfold Nat.toDigitsCore
    by_cases hq : n / 10 = 0
    · have hlt : n < 10 := by omega
      have hmod : n % 10 = n := Nat.mod_eq_of_lt hlt
      refine ⟨[Nat.digitChar (n % 10)], by simp [hq], by simp, ?_, ?_, ?_, ?_⟩
      · intro c hc
        rw [List.mem_singleton] at hc
        rw [hc]; exact hdig
      · intro hn0
        rw [hmod] at hzero
        simp [hmod, hzero hn0]
      · intro hn0
        subst hn0
        rfl
      · simp only [digitsValue, List.foldl_cons, List.foldl_nil, Nat.mul_zero, Nat.zero_add]
        rw [hval, hmod]
    · obtain ⟨ds, hds, hne, hall, hhead, _, hv⟩ :=
        ih (n / 10) (Nat.digitChar (n % 10) :: acc) (by omega)
      obtain ⟨c, cs, rfl⟩ := List.exists_cons_of_ne_nil hne
      refine ⟨c :: cs ++ [Nat.digitChar (n % 10)], by simp [hq, hds], by simp, ?_, ?_, ?_, ?_⟩
      · intro x hx
        rw [List.mem_append, List.mem_singleton] at hx
        rcases hx with hx | hx
        · exact hall x hx
        · rw [hx]; exact hdig
      · intro _
        exact hhead hq
      · intro hn0
        subst hn0
        exact absurd rfl hq
      · rw [digitsValue_append_singleton, hv, hval]
        omega

/-- The text `Nat.toDigits 10 n` is the canonical decimal text of `n`. -/
theorem toDigits_canonical (n : Nat) : IsCanonicalDigits (Nat.toDigits 10 n) n := by
  obtain ⟨ds, hds, hcan⟩ := toDigitsCore_canonical (n + 1) n [] (Nat.lt_succ_self n)
  unfold Nat.toDigits
  rw [hds, List.append_nil]
  exact hcan

/-- A value returned by `std::stoi` fits an `int`. -/
theorem stoi_ok_range (str : String) (v : Int) (h : stoi str = .ok v) :
    INT_MIN ≤ v ∧ v ≤ INT_MAX := by
  unfold stoi at h
  simp only [] at h
  split_ifs at h with h1 h2
  simp only [Bool.or_eq_true, decide_eq_true_eq, not_or, not_lt] at h2
  cases h
  exact ⟨h2.1.2, h2.2⟩

/-- A value returned by `std::stoul` fits an `unsigned long`. -/
theorem stoul_ok_range (str : String) (v : Nat) (h : stoul str = .ok v) :
    v ≤ ULONG_MAX := by
  unfold stoul at h
  simp only [] at h
  split_ifs at h with h1 h2
  cases h
  unfold strtoul at h2 ⊢
  simp only [] at h2 ⊢
  split_ifs at h2 ⊢ <;> simp_all [ULONG_MAX]
  omega

/-- Parsing the text of an `int` gives the `int` back. -/
theorem int_parse_str (v : Int) (previous : Option Int)
    (hlo : INT_MIN ≤ v) (hhi : v ≤ INT_MAX) :
    Converter_int.parse (Converter_int.str v) previous = .ok v := by
  obtain ⟨hne, hall, _, _, hval⟩ := toDigits_canonical v.natAbs
  by_cases hneg : v < 0
  · have h := stoi_sign_digits ['-'] (Nat.toDigits 10 v.natAbs) [] (Or.inr (Or.inl rfl))
      hne hall rfl
    have hsv : signedValue ['-'] (Nat.toDigits 10 v.natAbs) = v := by
      simp only [signedValue, if_true, hval]
      omega
    rw [hsv, if_neg (by omega), List.append_nil] at h
    simp only [Converter_int.parse, Converter_int.str, to_string_int, if_pos hneg]
    exact h
  · have h := stoi_sign_digits [] (Nat.toDigits 10 v.natAbs) [] (Or.inl rfl) hne hall rfl
    have hsv : signedValue [] (Nat.toDigits 10 v.natAbs) = v := by
      have hno : ¬ (([] : List Char) = ['-']) := by simp
      simp only [signedValue, if_neg hno, hval]
      omega
    rw [hsv, if_neg (by omega), List.append_nil, List.nil_append] at h
    simp only [Converter_int.parse, Converter_int.str, to_string_int, if_neg hneg]
    exact h

/-- Parsing the text of an `unsigned long` gives the `unsigned long` back. -/
theorem unsigned_long_parse_str (v : Nat) (previous : Option Nat) (hhi : v ≤ ULONG_MAX) :
    Converter_unsigned_long.parse (Converter_unsigned_long.str v) previous = .ok v := by
  obtain ⟨hne, hall, _, _, hval⟩ := toDigits_canonical v
  have h := stoul_sign_digits [] (Nat.toDigits 10 v) [] (Or.inl rfl) hne hall rfl
  have hno : ¬ (([] : List Char) = ['-']) := by simp
  rw [hval, if_neg (by omega), if_neg hno, List.append_nil, List.nil_append] at h
  simp only [Converter_unsigned_long.parse, Converter_unsigned_long.str,
    to_string_unsigned_long]
  exact h

/-- C13: round trip through the canonical text.  When `Converter<int>::parse`
returns `v` on a token, `Converter<int>::parse` of `Converter<int>::str(v)`
returns `v` too; the same holds for `Converter<unsigned long>`. -/
theorem integer_parse_str_parse (s : String) :
    (∀ (v : Int) (previous previous2 : Option Int),
      Converter_int.parse s previous = .ok v →
        Converter_int.parse (Converter_int.str v) previous2 = .ok v) ∧
    (∀ (v : Nat) (previous previous2 : Option Nat),
      Converter_unsigned_long.parse s previous = .ok v →
        Converter_unsigned_long.parse (Converter_unsigned_long.str v) previous2 = .ok v) := by
  constructor
  · intro v previous previous2 h
    obtain ⟨hlo, hhi⟩ := stoi_ok_range s v h
    exact int_parse_str v previous2 hlo hhi
  · intro v previous previous2 h
    exact unsigned_long_parse_str v previous2 (stoul_ok_range s v h)

/-- Witness for C13 at the token " -0042x": both converters return a value on
it, and the text of that value parses to the same value. -/
theorem integer_parse_str_parse_witness :
    (Converter_int.parse " -0042x" none = .ok (-42) ∧
      Converter_int.parse (Converter_int.str (-42)) none = .ok (-42)) ∧
    (Converter_unsigned_long.parse " -0042x" none = .ok 18446744073709551574 ∧
      Converter_unsigned_long.parse (Converter_unsigned_long.str 18446744073709551574) none =
        .ok 18446744073709551574) :=
  ⟨⟨by decide, (integer_parse_str_parse " -0042x").1 (-42) none none (by decide)⟩,
   ⟨by decide, (integer_parse_str_parse " -0042x").2 18446744073709551574 none none
      (by decide)⟩⟩

/-- C14: `Converter<int>::str(n)` is the canonical base-10 text of `n`: a
leading '-' exactly when `n < 0`, no '+', and then the canonical digits of the
magnitude (no leading zero unless the text is "0"); and
`Converter<unsigned long>::str(m)` is the canonical digits of `m`. -/
theorem integer_str_canonical (n : Int) (m : Nat) :
    ((Converter_int.str n).data.head? = some '-' ↔ n < 0) ∧
    (n < 0 → ∃ ds, (Converter_int.str n).data = '-' :: ds ∧ IsCanonicalDigits ds n.natAbs) ∧
    (0 ≤ n → IsCanonicalDigits (Converter_int.str n).data n.natAbs) ∧
    '+' ∉ (Converter_int.str n).data ∧
    (n = 0 → Converter_int.str n = "0") ∧
    IsCanonicalDigits (Converter_unsigned_long.str m).data m ∧
    (m = 0 → Converter_unsigned_long.str m = "0") := by
  have hcan := toDigits_canonical n.natAbs
  obtain ⟨hne, hall, _, hzero, _⟩ := hcan
  obtain ⟨c, cs, hcs⟩ := List.exists_cons_of_ne_nil hne
  have hc : isdigit c = true := hall c (by rw [hcs]; exact List.mem_cons_self _ _)
  have hplus : '+' ∉ Nat.toDigits 10 n.natAbs := by
    intro hmem
    exact absurd (hall '+' hmem) (by decide)
  refine ⟨?_, ?_, ?_, ?_, ?_, toDigits_canonical m, ?_⟩
  · by_cases hneg : n < 0
    · simp [Converter_int.str, to_string_int, hneg]
    · rw [iff_false_right hneg]
      simp only [Converter_int.str, to_string_int, if_neg hneg, hcs, List.head?_cons,
        Option.some.injEq]
      exact (isdigit_not_special c hc).2.1
  · intro hneg
    exact ⟨Nat.toDigits 10 n.natAbs, by simp [Converter_int.str, to_string_int, hneg],
      toDigits_canonical n.natAbs⟩
  · intro hpos
    have hneg : ¬ n < 0 := by omega
    simp only [Converter_int.str, to_string_int, if_neg hneg]
    exact toDigits_canonical n.natAbs
  · by_cases hneg : n < 0
    · simp only [Converter_int.str, to_string_int, if_pos hneg, List.mem_cons, not_or]
      exact ⟨by decide, hplus⟩
    · simp only [Converter_int.str, to_string_int, if_neg hneg]
      exact hplus
  · intro h0
    subst h0
    rfl
  · intro h0
    subst h0
    rfl

/-- Witness for C14 at `INT_MIN`, 0 and `ULONG_MAX`. -/
theorem integer_str_canonical_witness :
    (∃ ds, (Converter_int.str (-2147483648)).data = '-' :: ds ∧
      IsCanonicalDigits ds 2147483648) ∧
    Converter_int.str 0 = "0" ∧
    IsCanonicalDigits (Converter_unsigned_long.str 18446744073709551615).data
      18446744073709551615 :=
  ⟨(integer_str_canonical (-2147483648) 18446744073709551615).2.1 (by decide),
   (integer_str_canonical 0 0).2.2.2.2.1 rfl,
   (integer_str_canonical (-2147483648) 18446744073709551615).2.2.2.2.2.1⟩

/-! ## Theorems: Input -/

/-- An extraction with the cursor on a token yields that token and moves the
cursor by one, leaving the tokens as they are. -/
theorem Input_extract_of_lt (toks : List String) (cur : Nat) (h : cur < toks.length) :
    Input.extract { tokens := toks, cursor := cur } =
      .ok (toks.get ⟨cur, h⟩, { tokens := toks, cursor := cur + 1 }) := by
  simp only [Input.extract, List.get?_eq_get h]

/-- An extraction with the cursor past the last token fails as exhausted. -/
theorem Input_extract_of_ge (toks : List String) (cur : Nat) (h : toks.length ≤ cur) :
    Input.extract { tokens := toks, cursor := cur } = .error .Exhausted := by
  simp only [Input.extract, List.get?_eq_none.mpr h]

/-- While tokens remain, `k` extractions yield the next `k` tokens in order
and move the cursor by `k`. -/
theorem Input_extractMany_of_le (toks : List String) (k : Nat) :
    ∀ cur, cur + k ≤ toks.length →
      Input.extractMany k { tokens := toks, cursor := cur } =
        .ok ((toks.drop cur).take k, { tokens := toks, cursor := cur + k }) := by
  induction k with
  | zero => intro cur _; simp [Input.extractMany]
  | succ k ih =>
    intro cur h
    have hlt : cur < toks.length := by omega
    have hstep := ih (cur + 1) (by omega)
    simp only [Input.extractMany, Input_extract_of_lt toks cur hlt, hstep]
    rw [List.drop_eq_getElem_cons hlt, List.take_succ_cons, List.get_eq_getElem]
    have : cur + 1 + k = cur + (k + 1) := by omega
    rw [this]

/-- The extraction that follows the last token fails as exhausted, and with it
the whole run of extractions. -/
theorem Input_extractMany_exhausted (toks : List String) (k : Nat) :
    ∀ cur, cur + k = toks.length →
      Input.extractMany (k + 1) { tokens := toks, cursor := cur } = .error .Exhausted := by
  induction k with
  | zero =>
    intro cur h
    simp only [Input.extractMany, Input_extract_of_ge toks cur (by omega)]
  | succ k ih =>
    intro cur h
    have hlt : cur < toks.length := by omega
    have hstep := ih (cur + 1) (by omega)
    rw [Input.extractMany]
    simp only [Input_extract_of_lt toks cur hlt, hstep]

/-- C15: over a non-empty token sequence `[c, a1, ..., an]`, `command()` is
`c`; the first `k` extractions (`k ≤ n`) yield `a1, ..., ak` in order, starting
at index 1 and leaving the tokens unchanged, so the extraction after `k`
earlier ones yields the next argument; and the extraction after `n` earlier
ones fails as exhausted. -/
theorem input_command_and_extraction (c : String) (args : List String) :
    (Input.ofArgList (c :: args)).tokens = c :: args ∧
    (Input.ofArgList (c :: args)).command = .ok c ∧
    (∀ k, k ≤ args.length →
      Input.extractMany k (Input.ofArgList (c :: args)) =
        .ok (args.take k, { tokens := c :: args, cursor := k + 1 })) ∧
    (∀ k (hk : k < args.length),
      Input.extract { tokens := c :: args, cursor := k + 1 } =
        .ok (args.get ⟨k, hk⟩, { tokens := c :: args, cursor := k + 2 })) ∧
    Input.extract { tokens := c :: args, cursor := args.length + 1 } = .error .Exhausted ∧
    Input.extractMany (args.length + 1) (Input.ofArgList (c :: args)) =
      .error .Exhausted := by
  refine ⟨rfl, rfl, ?_, ?_, ?_, ?_⟩
  · intro k hk
    have h := Input_extractMany_of_le (c :: args) k 1 (by simp only [List.length_cons]; omega)
    rw [Nat.add_comm 1 k] at h
    simpa [Input.ofArgList] using h
  · intro k hk
    have h := Input_extract_of_lt (c :: args) (k + 1) (by simp only [List.length_cons]; omega)
    simpa using h
  · exact Input_extract_of_ge (c :: args) (args.length + 1) (by simp)
  · exact Input_extractMany_exhausted (c :: args) args.length 1
      (by simp only [List.length_cons]; omega)

/-- Witness for C15 over the tokens "set", "width", "800": the command is
"set", the first extraction yields "width", the second read as an integer
yields 800, and the third fails as exhausted. -/
theorem input_command_and_extraction_witness :
    (Input.ofArgList ["set", "width", "800"]).command = .ok "set" ∧
    Input.extract (Input.ofArgList ["set", "width", "800"]) =
      .ok ("width", { tokens := ["set", "width", "800"], cursor := 2 }) ∧
    Input.extract_int { tokens := ["set", "width", "800"], cursor := 2 } =
      .ok (800, { tokens := ["set", "width", "800"], cursor := 3 }) ∧
    Input.extractMany 2 (Input.ofArgList ["set", "width", "800"]) =
      .ok (["width", "800"], { tokens := ["set", "width", "800"], cursor := 3 }) ∧
    Input.extract { tokens := ["set", "width", "800"], cursor := 3 } = .error .Exhausted :=
  ⟨(input_command_and_extraction "set" ["width", "800"]).2.1,
   (input_command_and_extraction "set" ["width", "800"]).2.2.2.1 0 (by decide),
   by decide,
   (input_command_and_extraction "set" ["width", "800"]).2.2.1 2 (by decide),
   (input_command_and_extraction "set" ["width", "800"]).2.2.2.2.1⟩

/-! ## Theorems: booleans, continued -/

/-- The two texts with which `Converter<bool>::parse` can fail, by the
presence of a previous value. -/
theorem bool_parse_error_what (payload : String) (previous : Option Bool) (e : Err)
    (h : Converter_bool.parse payload previous = .error e) :
    e = .invalid_argument
      (if previous.isSome then "only on/off/true/false/toggle are valid booleans"
       else "only on/off/true/false are valid booleans") := by
  unfold Converter_bool.parse at h
  split_ifs at h with h1 h2 h3 h4
  · cases h
    rw [if_pos h4]
  · cases h
    rw [if_neg h4]

/-- C16, as stated, fails: on the token "maybe" without a previous value
`Converter<bool>::parse` fails with a text that names neither "1" nor "0",
although it accepts both. -/
theorem bool_parse_message_omits_digits :
    Converter_bool.parse "maybe" none =
        .error (.invalid_argument "only on/off/true/false are valid booleans") ∧
      ¬ "1".data <:+: "only on/off/true/false are valid booleans".data ∧
      ¬ "0".data <:+: "only on/off/true/false are valid booleans".data ∧
      Converter_bool.parse "1" none = .ok true ∧
      Converter_bool.parse "0" none = .ok false := by
  decide

/-- C16, amended: whenever `Converter<bool>::parse` fails, the `what()` text
is "only on/off/true/false/toggle are valid booleans" when a previous value is
present and "only on/off/true/false are valid booleans" when it is absent.
The literals the text lists are "on", "off", "true", "false", followed by
"toggle" exactly when a previous value is present. -/
theorem bool_parse_message_lists_words (payload : String) (previous : Option Bool) (e : Err)
    (h : Converter_bool.parse payload previous = .error e) :
    e.what = (if previous.isSome then "only on/off/true/false/toggle are valid booleans"
      else "only on/off/true/false are valid booleans") ∧
    listedLiterals e.what = (if previous.isSome then ["on", "off", "true", "false", "toggle"]
      else ["on", "off", "true", "false"]) ∧
    (∀ w ∈ ["true", "on", "false", "off"], w ∈ listedLiterals e.what) ∧
    ("toggle" ∈ listedLiterals e.what ↔ previous.isSome = true) := by
  rw [bool_parse_error_what payload previous e h]
  cases previous with
  | none => simp only [Option.isSome_none]; decide
  | some p => simp only [Option.isSome_some]; decide

/-- Witness for C16, amended, at the token "maybe": with a previous value the
text lists "toggle", without one it does not. -/
theorem bool_parse_message_lists_words_witness :
    Converter_bool.parse "maybe" (some true) =
        .error (.invalid_argument "only on/off/true/false/toggle are valid booleans") ∧
      listedLiterals "only on/off/true/false/toggle are valid booleans" =
        ["on", "off", "true", "false", "toggle"] ∧
      listedLiterals "only on/off/true/false are valid booleans" =
        ["on", "off", "true", "false"] ∧
      "toggle" ∉ listedLiterals "only on/off/true/false are valid booleans" :=
  ⟨by decide,
   (bool_parse_message_lists_words "maybe" (some true)
      (.invalid_argument "only on/off/true/false/toggle are valid booleans")
      (by decide)).2.1,
   (bool_parse_message_lists_words "maybe" none
      (.invalid_argument "only on/off/true/false are valid booleans")
      (by decide)).2.1,
   fun hc => absurd
     ((bool_parse_message_lists_words "maybe" none
        (.invalid_argument "only on/off/true/false are valid booleans")
        (by decide)).2.2.2.mp hc) (by decide)⟩

/-- C17: the previous value matters to `Converter<bool>::parse` only on the
token "toggle": on any other token two calls with any two previous values
have the same outcome (the same value, or the same kind of exception).  For
`int`, `unsigned long`, `std::string` and `Direction` the result does not
depend on the previous value at all. -/
theorem parse_previous_only_for_toggle (payload : String) :
    (payload ≠ "toggle" → ∀ previous previous2 : Option Bool,
      outcome (Converter_bool.parse payload previous) =
        outcome (Converter_bool.parse payload previous2)) ∧
    (∀ previous previous2 : Option Int,
      Converter_int.parse payload previous = Converter_int.parse payload previous2) ∧
    (∀ previous previous2 : Option Nat,
      Converter_unsigned_long.parse payload previous =
        Converter_unsigned_long.parse payload previous2) ∧
    (∀ previous previous2 : Option String,
      Converter_string.parse payload previous = Converter_string.parse payload previous2) ∧
    (∀ previous previous2 : Option Direction,
      Converter_Direction.parse payload previous =
        Converter_Direction.parse payload previous2) := by
  refine ⟨?_, fun _ _ => rfl, fun _ _ => rfl, fun _ _ => rfl, fun _ _ => rfl⟩
  intro hne previous previous2
  have key : ∀ p : Option Bool, outcome (Converter_bool.parse payload p) =
      if payload ∈ Converter_bool.f then .ok false
      else if payload ∈ Converter_bool.t then .ok true
      else .error .InvalidArgument := by
    intro p
    unfold Converter_bool.parse
    split_ifs with h1 h2 h3 h4
    · rfl
    · rfl
    · exact absurd h3.1 hne
    · rfl
    · rfl
  rw [key previous, key previous2]

/-- Witness for C17 at the token "on" and at the token "maybe". -/
theorem parse_previous_only_for_toggle_witness :
    outcome (Converter_bool.parse "on" none) = outcome (Converter_bool.parse "on" (some false)) ∧
    outcome (Converter_bool.parse "maybe" (some true)) =
      outcome (Converter_bool.parse "maybe" none) :=
  ⟨(parse_previous_only_for_toggle "on").1 (by decide) none (some false),
   (parse_previous_only_for_toggle "maybe").1 (by decide) (some true) none⟩

/-- C18: formatting a boolean and parsing the text gives the boolean back,
whatever the previous value; so when `Converter<bool>::parse` returns `v` on a
token, it returns `v` on `Converter<bool>::str(v)` as well. -/
theorem bool_parse_str (previous : Option Bool) :
    (∀ b : Bool, Converter_bool.parse (Converter_bool.str b) previous = .ok b) ∧
    (∀ (token : String) (previous2 : Option Bool) (v : Bool),
      Converter_bool.parse token previous2 = .ok v →
        Converter_bool.parse (Converter_bool.str v) previous = .ok v) := by
  have h : ∀ b : Bool, Converter_bool.parse (Converter_bool.str b) previous = .ok b := by
    intro b
    cases b <;>
      simp [Converter_bool.parse, Converter_bool.str, Converter_bool.f, Converter_bool.t]
  exact ⟨h, fun _ _ v _ => h v⟩

/-- Witness for C18 at the token "on", which parses to `true`, whose text
"true" parses to `true`. -/
theorem bool_parse_str_witness :
    Converter_bool.parse "on" none = .ok true ∧
      Converter_bool.parse (Converter_bool.str true) none = .ok true :=
  ⟨by decide, (bool_parse_str none).2 "on" none true (by decide)⟩

/-! ## Theorems: directions, continued -/

/-- C19: the first-character table is a bijection between 'u', 'r', 'd', 'l'
and the four Directions: every Direction is the result of parsing some token,
two tokens that parse to the same Direction have the same first character,
and each Direction has exactly one one-character text that parses to it. -/
theorem direction_table_bijective :
    (∀ d : Direction, ∃ payload, Converter_Direction.parse payload none = .ok d) ∧
    (∀ (payload payload2 : String) (previous previous2 : Option Direction) (d : Direction),
      payload ≠ "" → payload2 ≠ "" →
      Converter_Direction.parse payload previous = .ok d →
      Converter_Direction.parse payload2 previous2 = .ok d →
      payload.data.head? = payload2.data.head?) ∧
    (∀ d : Direction, ∃! c : Char, Converter_Direction.parse (String.mk [c]) none = .ok d) := by
  have table : ∀ (c : Char) (d : Direction), Converter_Direction.mapping.lookup c = some d →
      (d = .Up ∧ c = 'u') ∨ (d = .Right ∧ c = 'r') ∨ (d = .Down ∧ c = 'd') ∨
        (d = .Left ∧ c = 'l') := by
    intro c d h
    simp only [Converter_Direction.mapping, List.lookup] at h
    by_cases h1 : c = 'u'
    · subst h1; cases h; exact Or.inl ⟨rfl, rfl⟩
    · by_cases h2 : c = 'r'
      · subst h2; cases h; exact Or.inr (Or.inl ⟨rfl, rfl⟩)
      · by_cases h3 : c = 'd'
        · subst h3; cases h; exact Or.inr (Or.inr (Or.inl ⟨rfl, rfl⟩))
        · by_cases h4 : c = 'l'
          · subst h4; cases h; exact Or.inr (Or.inr (Or.inr ⟨rfl, rfl⟩))
          · have e1 : (c == 'u') = false := by simp [h1]
            have e2 : (c == 'r') = false := by simp [h2]
            have e3 : (c == 'd') = false := by simp [h3]
            have e4 : (c == 'l') = false := by simp [h4]
            simp [e1, e2, e3, e4] at h
  have first : ∀ (payload : String) (previous : Option Direction) (d : Direction),
      Converter_Direction.parse payload previous = .ok d →
      ∃ c, payload.data.head? = some c ∧ Converter_Direction.mapping.lookup c = some d := by
    intro payload previous d h
    obtain ⟨data⟩ := payload
    cases data with
    | nil => simp [Converter_Direction.parse, String_at] at h
    | cons c rest =>
      refine ⟨c, rfl, ?_⟩
      rw [direction_parse_of_head ⟨c :: rest⟩ previous c rfl] at h
      cases hl : Converter_Direction.mapping.lookup c with
      | none => rw [hl] at h; cases h
      | some d2 => rw [hl] at h; cases h; rfl
  have inj : ∀ (c c2 : Char) (d : Direction), Converter_Direction.mapping.lookup c = some d →
      Converter_Direction.mapping.lookup c2 = some d → c = c2 := by
    intro c c2 d h h2
    rcases table c d h with ⟨hd, hc⟩ | ⟨hd, hc⟩ | ⟨hd, hc⟩ | ⟨hd, hc⟩ <;>
      rcases table c2 d h2 with ⟨hd2, hc2⟩ | ⟨hd2, hc2⟩ | ⟨hd2, hc2⟩ | ⟨hd2, hc2⟩ <;>
      first
        | (subst hc; subst hc2; rfl)
        | (rw [hd] at hd2; cases hd2)
  refine ⟨?_, ?_, ?_⟩
  · intro d
    cases d
    · exact ⟨"r", by decide⟩
    · exact ⟨"l", by decide⟩
    · exact ⟨"u", by decide⟩
    · exact ⟨"d", by decide⟩
  · intro payload payload2 previous previous2 d _ _ h h2
    obtain ⟨c, hc, hl⟩ := first payload previous d h
    obtain ⟨c2, hc2, hl2⟩ := first payload2 previous2 d h2
    rw [hc, hc2, inj c c2 d hl hl2]
  · intro d
    have unique : ∀ c c2 : Char, Converter_Direction.parse (String.mk [c]) none = .ok d →
        Converter_Direction.parse (String.mk [c2]) none = .ok d → c2 = c := by
      intro c c2 h h2
      obtain ⟨x, hx, hl⟩ := first _ none d h
      obtain ⟨x2, hx2, hl2⟩ := first _ none d h2
      simp only [List.head?_cons, Option.some.injEq] at hx hx2
      rw [hx, hx2, inj x x2 d hl hl2]
    cases d
    · exact ⟨'r', by decide, fun c2 h2 => unique 'r' c2 (by decide) h2⟩
    · exact ⟨'l', by decide, fun c2 h2 => unique 'l' c2 (by decide) h2⟩
    · exact ⟨'u', by decide, fun c2 h2 => unique 'u' c2 (by decide) h2⟩
    · exact ⟨'d', by decide, fun c2 h2 => unique 'd' c2 (by decide) h2⟩

/-- Witness for C19: "up" and "u" both parse to Up and have the same first
character. -/
theorem direction_table_bijective_witness :
    "up".data.head? = "u".data.head? :=
  direction_table_bijective.2.1 "up" "u" none none .Up (by decide) (by decide)
    (by decide) (by decide)

/-! ## Theorems: unsigned integers -/

/-- C20: `Converter<unsigned long>::parse` does not reject a negative token:
on "-" followed by digits of magnitude `m` with `1 ≤ m ≤ ULONG_MAX` it returns
`2 ^ 64 - m`; on digits whose value exceeds `ULONG_MAX` it throws
`std::out_of_range`. -/
theorem unsigned_long_parse_negative (ds : List Char) (previous : Option Nat)
    (hne : ds ≠ []) (hds : ∀ d ∈ ds, isdigit d = true) :
    (1 ≤ digitsValue ds → digitsValue ds ≤ ULONG_MAX →
      Converter_unsigned_long.parse (String.mk ('-' :: ds)) previous =
        .ok (2 ^ 64 - digitsValue ds)) ∧
    (digitsValue ds > ULONG_MAX →
      Converter_unsigned_long.parse (String.mk ds) previous = .error (.out_of_range "stoul") ∧
      outcome (Converter_unsigned_long.parse (String.mk ds) previous) =
        .error .OutOfRange) := by
  constructor
  · intro h1 h2
    have h := stoul_sign_digits ['-'] ds [] (Or.inr (Or.inl rfl)) hne hds rfl
    rw [if_neg (by omega), if_pos rfl, List.append_nil] at h
    have hmod : (2 ^ 64 - digitsValue ds) % 2 ^ 64 = 2 ^ 64 - digitsValue ds :=
      Nat.mod_eq_of_lt (by omega)
    rw [hmod] at h
    exact h
  · intro hbig
    have h := stoul_sign_digits [] ds [] (Or.inl rfl) hne hds rfl
    rw [if_pos hbig, List.append_nil, List.nil_append] at h
    have hp : Converter_unsigned_long.parse (String.mk ds) previous =
        .error (.out_of_range "stoul") := h
    exact ⟨hp, by rw [hp]; rfl⟩

/-- Witness for C20 at "-1" and at "18446744073709551616". -/
theorem unsigned_long_parse_negative_witness :
    Converter_unsigned_long.parse "-1" none = .ok 18446744073709551615 ∧
      Converter_unsigned_long.parse "18446744073709551616" none =
        .error (.out_of_range "stoul") :=
  ⟨(unsigned_long_parse_negative ['1'] none (by decide) (by decide)).1 (by decide) (by decide),
   ((unsigned_long_parse_negative "18446744073709551616".data none (by decide)
      (by decide)).2 (by decide)).1⟩

end Herbstluftwm
